import Mathlib

/-!
Verification of the concurrent external-task supervisor
(`_run_in_parallel` in `dev_scripts/update_to_aas_core_meta_codegen.py`)
and the test launcher built by `_run_tests_and_rerecord`.

The Python code is embedded shallowly.  An external OS process is modelled
by a `Behavior`: the time at which it would exit on its own together with
its exit code, and its reaction to a termination signal (exit after a given
delay, or ignore the signal).  Time is discrete: `time.sleep(1)` advances
the clock by one tick, all other statements take no time, and `time.time()`
reads the tick counter.  `subprocess.Popen.poll` and `Popen.terminate`
follow CPython's POSIX implementation: `poll` caches the exit status once
the process has exited, and `terminate` (`send_signal`) first polls and
only delivers the signal when the cached status is still absent.  The
supervisor loop is run on fuel; exhausting the fuel yields the distinguished
result `outOfFuel` (the Python loop simply keeps running in that case).
-/

namespace ParallelRun

/-- How an external process behaves: `selfExit = some (te, c)` means it exits
on its own at time `te` with exit code `c`; `termAfterSignal = some d` means
that after the first termination signal, received at time `s`, it exits at
time `s + d` (with the conventional negated-signal code), while `none` means
it ignores termination signals. -/
structure Behavior where
  selfExit : Option (Nat × Int)
  termAfterSignal : Option Nat
deriving DecidableEq, Repr

/-- The state of one spawned process as seen by the supervisor together with
the OS-level observations: `rc` is the exit status cached by `poll` (the
`Popen.returncode`), `firstSig` the time the first termination signal was
delivered, `sigCount` the number of delivered signals, and `termCalls` the
number of `terminate` calls made on the handle. -/
structure Proc where
  b : Behavior
  firstSig : Option Nat
  sigCount : Nat
  termCalls : Nat
  rc : Option Int
deriving DecidableEq, Repr

/-- A freshly launched process: no signal, no cached exit status. -/
def initProc (b : Behavior) : Proc :=
  ⟨b, none, 0, 0, none⟩

/-- The time at which the process exits in reaction to the first termination
signal, if any. -/
def Behavior.sigExitTime (b : Behavior) (firstSig : Option Nat) : Option Nat :=
  match firstSig, b.termAfterSignal with
  | some s, some d => some (s + d)
  | _, _ => none

/-- The exit code of the process at time `t`, given the time of the first
termination signal: `none` while the process is still running.  When both a
self-exit and a signal-induced exit are possible the earlier one happens
(ties go to the self-exit). -/
def Behavior.osExitCode (b : Behavior) (firstSig : Option Nat) (t : Nat) : Option Int :=
  match b.selfExit, b.sigExitTime firstSig with
  | some (te, c), some ts =>
      if te ≤ ts then (if te ≤ t then some c else none)
      else (if ts ≤ t then some (-15) else none)
  | some (te, c), none => if te ≤ t then some c else none
  | none, some ts => if ts ≤ t then some (-15) else none
  | none, none => none

/-- Model of `Popen.poll` at time `t`: once the exit status is cached it is returned
unchanged; otherwise the OS is asked whether the process has exited. -/
def Proc.poll (p : Proc) (t : Nat) : Proc :=
  match p.rc with
  | some _ => p
  | none => { p with rc := p.b.osExitCode p.firstSig t }

/-- Model of `Popen.terminate` at time `t` (CPython POSIX `send_signal`): poll first,
and only deliver the signal when the process has not been observed to have
exited. -/
def Proc.terminate (p : Proc) (t : Nat) : Proc :=
  let q : Proc := { p with termCalls := p.termCalls + 1 }
  let q := q.poll t
  match q.rc with
  | some _ => q
  | none =>
      { q with
        sigCount := q.sigCount + 1
        firstSig := match q.firstSig with
          | some s => some s
          | none => some t }

/-- Python's `sum(1 for proc in procs if proc.returncode is None)`. -/
def countRemaining (procs : List Proc) : Nat :=
  procs.countP (fun p => p.rc.isNone)

/-- The failure flag computed by a poll sweep: some polled process has a
non-zero cached exit status. -/
def sweepFailure (procs : List Proc) : Bool :=
  procs.any (fun p => match p.rc with
    | some code => code != 0
    | none => false)

/-- The state of the polling loop of `_run_in_parallel`. -/
structure LoopState where
  procs : List Proc
  now : Nat
  nextPrint : Nat
  remaining : Nat
  reports : List Nat
deriving DecidableEq, Repr

/-- The result of `_run_in_parallel`: `success` is Python's `None` return,
`failureCode c` the `return 1` path (carrying the returned code),
`launchError` a propagated exception from a failed launch, and `outOfFuel`
marks that the model ran out of fuel while the Python loop would still be
running. -/
inductive RunResult where
  | success
  | failureCode (code : Int)
  | launchError
  | outOfFuel
deriving DecidableEq, Repr

/-- The observable outcome of a run: result, final process states, the
remaining-counts passed to `on_status_update` in order, the time of the
failure sweep (when the failure branch fired), and the final clock value. -/
structure Outcome where
  result : RunResult
  procs : List Proc
  reports : List Nat
  failSweep : Option Nat
  now : Nat
deriving DecidableEq, Repr

/-- The reports after the status-update check at the top of one loop
iteration (`if time.time() > next_print: on_status_update(remaining_procs)`). -/
def stepReports (st : LoopState) : List Nat :=
  if st.nextPrint < st.now then st.reports ++ [st.remaining] else st.reports

/-- The print deadline after the status-update check at the top of one loop
iteration. -/
def stepNextPrint (st : LoopState) : Nat :=
  if st.nextPrint < st.now then st.now + 15 else st.nextPrint

/-- The `while remaining_procs > 0` loop of `_run_in_parallel`, run on fuel.
One iteration: status-update check, `time.sleep(1)`, a poll sweep computing
the failure flag, the failure branch (terminate every process and return 1),
a second poll sweep, and the recomputation of `remaining_procs`. -/
def runLoop (fuel : Nat) (st : LoopState) : Outcome :=
  if st.remaining = 0 then
    ⟨.success, st.procs, st.reports, none, st.now⟩
  else
    match fuel with
    | 0 => ⟨.outOfFuel, st.procs, st.reports, none, st.now⟩
    | fuel + 1 =>
        let t := st.now + 1
        let polled := st.procs.map (fun p => p.poll t)
        if sweepFailure polled then
          ⟨.failureCode 1, polled.map (fun p => p.terminate t), stepReports st, some t, t⟩
        else
          let polled2 := polled.map (fun p => p.poll t)
          runLoop fuel ⟨polled2, t, stepNextPrint st, countRemaining polled2, stepReports st⟩

/-- The `finally` block of `_run_in_parallel`, for one process:
`if proc.returncode is None: proc.terminate()`. -/
def finallyOne (p : Proc) (t : Nat) : Proc :=
  match p.rc with
  | some _ => p
  | none => p.terminate t

/-- The launch phase: run the calls in input order, collecting the spawned
processes; a `none` call raises, so later calls never run.  Returns the
processes launched so far and whether every launch succeeded. -/
def launchAll : List (Option Behavior) → List Proc × Bool
  | [] => ([], true)
  | none :: _ => ([], false)
  | some b :: rest =>
      let r := launchAll rest
      (initProc b :: r.1, r.2)

/-- Model of `_run_in_parallel`: launch everything, run the polling loop, and apply
the `finally` block to every launched process at the final clock value. -/
def runInParallel (fuel : Nat) (calls : List (Option Behavior)) : Outcome :=
  let launched := launchAll calls
  if launched.2 then
    let st : LoopState := ⟨launched.1, 0, 15, countRemaining launched.1, []⟩
    let out := runLoop fuel st
    ⟨out.result, out.procs.map (fun p => finallyOne p out.now), out.reports,
      out.failSweep, out.now⟩
  else
    ⟨.launchError, launched.1.map (fun p => finallyOne p 0), [], none, 0⟩

/-- Whether the process exits on its own (no signal) by time `t`. -/
def Behavior.selfExitedBy (b : Behavior) (t : Nat) : Bool :=
  match b.selfExit with
  | some (te, _) => te ≤ t
  | none => false

/-- Whether the process, on its own, exits with a non-zero code by time `t`. -/
def Behavior.selfFailedBy (b : Behavior) (t : Nat) : Bool :=
  match b.selfExit with
  | some (te, c) => te ≤ t && c != 0
  | none => false

/-- The state of a process that has never been signalled, right after a poll
at time `t`: fully determined by its behavior and the time. -/
def obsProc (b : Behavior) (t : Nat) : Proc :=
  ⟨b, none, 0, 0, b.osExitCode none t⟩

/-- The invariant of every process while the loop has not yet entered the
failure branch: never signalled, never terminated, and the cached exit
status (if any) is a zero self-exit that happened by time `now`. -/
def Pristine (p : Proc) (now : Nat) : Prop :=
  p.firstSig = none ∧ p.sigCount = 0 ∧ p.termCalls = 0 ∧
    ∀ c, p.rc = some c → c = 0 ∧ ∃ te, p.b.selfExit = some (te, c) ∧ te ≤ now

/-- The final state of a process after the failure branch fired at time `t`:
terminated in the failure sweep and then put through the `finally` block. -/
def postFail (b : Behavior) (t : Nat) : Proc :=
  finallyOne ((obsProc b t).terminate t) t

end ParallelRun

namespace Rerecord

/-- Where a standard stream of a spawned process is sent. -/
inductive Redirect where
  | devnull
  | inherited
deriving DecidableEq, Repr

/-- The launch parameters of one `subprocess.Popen` call. -/
structure PopenCall where
  args : List String
  cwd : String
  stdout : Redirect
  stderr : Redirect
  recordMode : Bool
deriving DecidableEq, Repr

/-- One launcher built by `_run_tests_and_rerecord` for a test file:
`Popen([sys.executable, str(a_pth)], cwd=str(cwd), stdout=DEVNULL,
stderr=DEVNULL, env=env)` with the record-mode variable set. -/
def testModuleCall (pyExe : String) (repoDir : String) (testFile : String) : PopenCall :=
  ⟨[pyExe, testFile], repoDir, .devnull, .devnull, true⟩

/-- The list of launchers `_run_tests_and_rerecord` hands to
`_run_in_parallel`, one per test file. -/
def rerecordCalls (pyExe : String) (repoDir : String) (testFiles : List String) :
    List PopenCall :=
  testFiles.map (testModuleCall pyExe repoDir)

end Rerecord

namespace ParallelRun

theorem poll_b (p : Proc) (t : Nat) : (p.poll t).b = p.b := by
  cases hrc : p.rc <;> simp [Proc.poll, hrc]

theorem poll_rc_some {p : Proc} {c : Int} (t : Nat) (h : p.rc = some c) :
    (p.poll t).rc = some c := by
  simp [Proc.poll, h]

theorem osExitCode_none_of_selfExit_none {b : Behavior} (t : Nat)
    (h : b.selfExit = none) : b.osExitCode none t = none := by
  simp [Behavior.osExitCode, Behavior.sigExitTime, h]

theorem osExitCode_none_of_selfExit_some {b : Behavior} {te : Nat} {c : Int} (t : Nat)
    (h : b.selfExit = some (te, c)) :
    b.osExitCode none t = if te ≤ t then some c else none := by
  simp [Behavior.osExitCode, Behavior.sigExitTime, h]

theorem osExitCode_none_some {b : Behavior} {t : Nat} {c : Int}
    (h : b.osExitCode none t = some c) :
    ∃ te, b.selfExit = some (te, c) ∧ te ≤ t := by
  cases hse : b.selfExit with
  | none => rw [osExitCode_none_of_selfExit_none t hse] at h; exact absurd h (by simp)
  | some x =>
      obtain ⟨te, c'⟩ := x
      rw [osExitCode_none_of_selfExit_some t hse] at h
      by_cases hte : te ≤ t
      · rw [if_pos hte] at h
        exact ⟨te, by rw [Option.some.inj h], hte⟩
      · rw [if_neg hte] at h; exact absurd h (by simp)

theorem obsProc_b (b : Behavior) (t : Nat) : (obsProc b t).b = b := rfl

theorem obsProc_poll (b : Behavior) (t : Nat) : (obsProc b t).poll t = obsProc b t := by
  cases hx : b.osExitCode none t <;> simp [obsProc, Proc.poll, hx]

theorem pristine_poll {p : Proc} {now t : Nat} (hp : Pristine p now) (ht : now ≤ t) :
    p.poll t = obsProc p.b t := by
  obtain ⟨h1, h2, h3, h4⟩ := hp
  cases p with
  | mk b fs sc tc rc =>
      simp only at h1 h2 h3 h4
      subst h1; subst h2; subst h3
      cases hrc : rc with
      | none => simp [Proc.poll, obsProc]
      | some c =>
          obtain ⟨hc0, te, hse, hte⟩ := h4 c hrc
          subst hrc
          simp only [Proc.poll, obsProc]
          rw [osExitCode_none_of_selfExit_some t hse, if_pos (le_trans hte ht)]

theorem pristine_init (b : Behavior) : Pristine (initProc b) 0 := by
  refine ⟨rfl, rfl, rfl, fun c h => ?_⟩
  simp [initProc] at h

theorem pristine_obs {b : Behavior} {t : Nat}
    (h : ∀ c, b.osExitCode none t = some c → c = 0) : Pristine (obsProc b t) t := by
  refine ⟨rfl, rfl, rfl, fun c hc => ?_⟩
  have hc' : b.osExitCode none t = some c := hc
  obtain ⟨te, hse, hte⟩ := osExitCode_none_some hc'
  exact ⟨h c hc', te, hse, hte⟩

theorem obs_rc_of_fail {b : Behavior} {te : Nat} {c : Int} {t : Nat}
    (hse : b.selfExit = some (te, c)) (hte : te ≤ t) : (obsProc b t).rc = some c := by
  show b.osExitCode none t = some c
  rw [osExitCode_none_of_selfExit_some t hse, if_pos hte]

theorem sweepFailure_false_rc {l : List Proc} (h : sweepFailure l = false) :
    ∀ q ∈ l, ∀ c, q.rc = some c → c = 0 := by
  intro q hq c hrc
  rw [sweepFailure, List.any_eq_false] at h
  have := h q hq
  rw [hrc] at this
  simpa using this

theorem sweepFailure_true_of {l : List Proc} {q : Proc} {c : Int}
    (hq : q ∈ l) (hrc : q.rc = some c) (hc : c ≠ 0) : sweepFailure l = true := by
  rw [sweepFailure, List.any_eq_true]
  refine ⟨q, hq, ?_⟩
  rw [hrc]
  simpa using hc

theorem countRemaining_ne_zero {l : List Proc} {q : Proc}
    (hq : q ∈ l) (h : q.rc = none) : countRemaining l ≠ 0 := by
  have : 0 < countRemaining l := by
    rw [countRemaining, List.countP_pos_iff]
    exact ⟨q, hq, by simp [h]⟩
  omega

theorem countRemaining_le_length (l : List Proc) : countRemaining l ≤ l.length :=
  List.countP_le_length _

theorem countRemaining_map_poll_le (l : List Proc) (t : Nat) :
    countRemaining (l.map (fun p => p.poll t)) ≤ countRemaining l := by
  rw [countRemaining, countRemaining, List.countP_map]
  refine List.countP_mono_left (fun p _ hp => ?_)
  simp only [Function.comp] at hp ⊢
  cases hrc : p.rc with
  | none => simp
  | some c => rw [poll_rc_some t hrc] at hp; simp at hp

end ParallelRun

namespace ParallelRun

theorem terminate_of_rc_some {p : Proc} {c : Int} (t : Nat) (h : p.rc = some c) :
    p.terminate t = { p with termCalls := p.termCalls + 1 } := by
  simp [Proc.terminate, Proc.poll, h]

theorem obs_terminate_some {b : Behavior} {t : Nat} {c : Int}
    (h : b.osExitCode none t = some c) :
    (obsProc b t).terminate t = ⟨b, none, 0, 1, some c⟩ := by
  simp [obsProc, Proc.terminate, Proc.poll, h]

theorem obs_terminate_none {b : Behavior} {t : Nat}
    (h : b.osExitCode none t = none) :
    (obsProc b t).terminate t = ⟨b, some t, 1, 1, none⟩ := by
  simp [obsProc, Proc.terminate, Proc.poll, h]

theorem postFail_some {b : Behavior} {t : Nat} {c : Int}
    (h : b.osExitCode none t = some c) :
    postFail b t = ⟨b, none, 0, 1, some c⟩ := by
  rw [postFail, obs_terminate_some h]; rfl

theorem postFail_none_spec {b : Behavior} {t : Nat}
    (h : b.osExitCode none t = none) :
    (postFail b t).b = b ∧ (postFail b t).termCalls = 2 ∧
      (postFail b t).firstSig = some t ∧ 1 ≤ (postFail b t).sigCount := by
  rw [postFail, obs_terminate_none h]
  cases hx : b.osExitCode (some t) t <;>
    simp [finallyOne, Proc.terminate, Proc.poll, hx]

theorem selfExitedBy_of_osExit_some {b : Behavior} {t : Nat} {c : Int}
    (h : b.osExitCode none t = some c) : b.selfExitedBy t = true := by
  obtain ⟨te, hse, hte⟩ := osExitCode_none_some h
  simp [Behavior.selfExitedBy, hse, hte]

theorem selfExitedBy_false_of_osExit_none {b : Behavior} {t : Nat}
    (h : b.osExitCode none t = none) : b.selfExitedBy t = false := by
  cases hse : b.selfExit with
  | none => simp [Behavior.selfExitedBy, hse]
  | some x =>
      obtain ⟨te, c⟩ := x
      rw [osExitCode_none_of_selfExit_some t hse] at h
      by_cases hte : te ≤ t
      · rw [if_pos hte] at h; exact absurd h (by simp)
      · simp [Behavior.selfExitedBy, hse, hte]

theorem osExit_none_of_not_selfExitedBy {b : Behavior} {t : Nat}
    (h : b.selfExitedBy t = false) : b.osExitCode none t = none := by
  cases hse : b.selfExit with
  | none => exact osExitCode_none_of_selfExit_none t hse
  | some x =>
      obtain ⟨te, c⟩ := x
      rw [Behavior.selfExitedBy, hse] at h
      simp only at h
      rw [osExitCode_none_of_selfExit_some t hse, if_neg (by simpa using h)]

theorem runLoop_done {fuel : Nat} {st : LoopState} (h : st.remaining = 0) :
    runLoop fuel st = ⟨.success, st.procs, st.reports, none, st.now⟩ := by
  rw [runLoop.eq_def, if_pos h]

theorem runLoop_zero {st : LoopState} (h : ¬ st.remaining = 0) :
    runLoop 0 st = ⟨.outOfFuel, st.procs, st.reports, none, st.now⟩ := by
  rw [runLoop.eq_def, if_neg h]

theorem runLoop_succ_fail {f : Nat} {st : LoopState} (h0 : ¬ st.remaining = 0)
    (hsf : sweepFailure (st.procs.map (fun p => p.poll (st.now + 1))) = true) :
    runLoop (f + 1) st =
      ⟨.failureCode 1,
        (st.procs.map (fun p => p.poll (st.now + 1))).map (fun p => p.terminate (st.now + 1)),
        stepReports st, some (st.now + 1), st.now + 1⟩ := by
  rw [runLoop.eq_def, if_neg h0]
  simp only [hsf, if_true]

theorem runLoop_succ_cont {f : Nat} {st : LoopState} (h0 : ¬ st.remaining = 0)
    (hsf : sweepFailure (st.procs.map (fun p => p.poll (st.now + 1))) = false) :
    runLoop (f + 1) st =
      runLoop f
        ⟨(st.procs.map (fun p => p.poll (st.now + 1))).map (fun p => p.poll (st.now + 1)),
          st.now + 1, stepNextPrint st,
          countRemaining
            ((st.procs.map (fun p => p.poll (st.now + 1))).map (fun p => p.poll (st.now + 1))),
          stepReports st⟩ := by
  rw [runLoop.eq_def, if_neg h0]
  simp only [hsf, if_false, Bool.false_eq_true]

end ParallelRun

namespace ParallelRun

/-- While no failure has been observed, the loop is pristine; once some
process self-fails within the fuel budget, the failure branch fires at some
tick `t`, terminating every process of the sweep. -/
theorem runLoop_fail (fuel : Nat) :
    ∀ (st : LoopState) (te : Nat) (c : Int),
    (∀ p ∈ st.procs, Pristine p st.now) →
    st.remaining = countRemaining st.procs →
    (∃ p ∈ st.procs, p.b.selfExit = some (te, c)) →
    c ≠ 0 → te ≤ st.now + fuel → 1 ≤ fuel →
    ∃ t rs, st.now < t ∧ t ≤ st.now + fuel ∧
      runLoop fuel st =
        ⟨.failureCode 1, st.procs.map (fun p => (obsProc p.b t).terminate t),
          rs, some t, t⟩ := by
  induction fuel with
  | zero => intro st te c _ _ _ _ _ hf; omega
  | succ f ih =>
      intro st te c hpr hremeq hex hc hte _
      obtain ⟨p0, hp0, hse0⟩ := hex
      have hrc0 : p0.rc = none := by
        cases hrc : p0.rc with
        | none => rfl
        | some c' =>
            obtain ⟨hc0, te', hse', _⟩ := (hpr p0 hp0).2.2.2 c' hrc
            rw [hse0] at hse'
            simp only [Option.some.injEq, Prod.mk.injEq] at hse'
            exact absurd (hse'.2.trans hc0) hc
      have hrem : ¬ st.remaining = 0 := by
        rw [hremeq]; exact countRemaining_ne_zero hp0 hrc0
      have hpolled : st.procs.map (fun p => p.poll (st.now + 1)) =
          st.procs.map (fun p => obsProc p.b (st.now + 1)) :=
        List.map_congr_left (fun p hp => pristine_poll (hpr p hp) (by omega))
      cases hsf : sweepFailure (st.procs.map (fun p => p.poll (st.now + 1))) with
      | true =>
          refine ⟨st.now + 1, stepReports st, by omega, by omega, ?_⟩
          rw [runLoop_succ_fail hrem hsf, hpolled, List.map_map]
          rfl
      | false =>
          have hpolled2 :
              (st.procs.map (fun p => p.poll (st.now + 1))).map
                  (fun p => p.poll (st.now + 1)) =
                st.procs.map (fun p => obsProc p.b (st.now + 1)) := by
            rw [hpolled, List.map_map]
            exact List.map_congr_left (fun p _ => obsProc_poll p.b (st.now + 1))
          -- the failing process was not yet observed at this tick
          have htlate : ¬ te ≤ st.now + 1 := by
            intro hle
            have hmem : obsProc p0.b (st.now + 1) ∈
                st.procs.map (fun p => p.poll (st.now + 1)) := by
              rw [hpolled]
              exact List.mem_map.2 ⟨p0, hp0, rfl⟩
            have := sweepFailure_true_of hmem (obs_rc_of_fail hse0 hle) hc
            rw [hsf] at this
            exact absurd this (by simp)
          set st' : LoopState :=
            ⟨(st.procs.map (fun p => p.poll (st.now + 1))).map
                (fun p => p.poll (st.now + 1)),
              st.now + 1, stepNextPrint st,
              countRemaining
                ((st.procs.map (fun p => p.poll (st.now + 1))).map
                  (fun p => p.poll (st.now + 1))),
              stepReports st⟩ with hst'
          have hprocs' : st'.procs = st.procs.map (fun p => obsProc p.b (st.now + 1)) :=
            hpolled2
          have hpr' : ∀ q ∈ st'.procs, Pristine q st'.now := by
            rw [hprocs']
            intro q hq
            obtain ⟨p, hp, rfl⟩ := List.mem_map.1 hq
            refine pristine_obs (fun c' hc' => ?_)
            have hqmem : obsProc p.b (st.now + 1) ∈
                st.procs.map (fun p => p.poll (st.now + 1)) := by
              rw [hpolled]; exact List.mem_map.2 ⟨p, hp, rfl⟩
            exact sweepFailure_false_rc hsf _ hqmem c' hc'
          have hex' : ∃ q ∈ st'.procs, q.b.selfExit = some (te, c) := by
            rw [hprocs']
            exact ⟨obsProc p0.b (st.now + 1), List.mem_map.2 ⟨p0, hp0, rfl⟩, hse0⟩
          have hf1 : 1 ≤ f := by omega
          obtain ⟨t, rs, ht1, ht2, heq⟩ :=
            ih st' te c hpr' rfl hex' hc (by simp only [hst']; omega) hf1
          refine ⟨t, rs, by simp only [hst'] at ht1; omega,
            by simp only [hst'] at ht2; omega, ?_⟩
          rw [runLoop_succ_cont hrem hsf, ← hst', heq, hprocs', List.map_map]
          rfl

end ParallelRun

namespace ParallelRun

theorem launchAll_map_some (bs : List Behavior) :
    launchAll (bs.map some) = (bs.map initProc, true) := by
  induction bs with
  | nil => rfl
  | cons b rest ih => simp [launchAll, ih]

theorem launchAll_false_iff (cs : List (Option Behavior)) :
    (launchAll cs).2 = false ↔ none ∈ cs := by
  induction cs with
  | nil => simp [launchAll]
  | cons c rest ih =>
      cases c with
      | none => simp [launchAll]
      | some b => simpa [launchAll] using ih

theorem launchAll_behaviors (cs : List (Option Behavior)) :
    (launchAll cs).1.map (fun p => p.b) =
      (cs.takeWhile (fun c => c.isSome)).filterMap id := by
  induction cs with
  | nil => rfl
  | cons c rest ih =>
      cases c with
      | none => simp [launchAll, List.takeWhile_cons]
      | some b => simp [launchAll, List.takeWhile_cons, ih, initProc]

theorem launchAll_init (cs : List (Option Behavior)) :
    ∀ p ∈ (launchAll cs).1, p = initProc p.b := by
  induction cs with
  | nil => intro p hp; simp [launchAll] at hp
  | cons c rest ih =>
      cases c with
      | none => intro p hp; simp [launchAll] at hp
      | some b =>
          intro p hp
          simp only [launchAll, List.mem_cons] at hp
          rcases hp with rfl | hp
          · rfl
          · exact ih p hp

theorem launchAll_length_le (cs : List (Option Behavior)) :
    (launchAll cs).1.length ≤ cs.length := by
  induction cs with
  | nil => simp [launchAll]
  | cons c rest ih =>
      cases c with
      | none => simp [launchAll]
      | some b => simpa [launchAll] using ih

/-- When some task in an all-launchable batch self-fails within the fuel
budget, the whole run ends in the failure branch at some tick `t`, and every
process ends in the `postFail` state for that tick. -/
theorem runInParallel_fail (fuel : Nat) (bs : List Behavior) (te : Nat) (c : Int)
    (hex : ∃ b ∈ bs, b.selfExit = some (te, c)) (hc : c ≠ 0) (hfuel : te < fuel) :
    ∃ t rs, 1 ≤ t ∧ t ≤ fuel ∧
      runInParallel fuel (bs.map some) =
        ⟨.failureCode 1, bs.map (fun b => postFail b t), rs, some t, t⟩ := by
  have hla := launchAll_map_some bs
  have hinit : ∀ p ∈ bs.map initProc, Pristine p 0 := by
    intro p hp
    obtain ⟨b, _, rfl⟩ := List.mem_map.1 hp
    exact pristine_init b
  have hex' : ∃ p ∈ bs.map initProc, p.b.selfExit = some (te, c) := by
    obtain ⟨b, hb, hse⟩ := hex
    exact ⟨initProc b, List.mem_map.2 ⟨b, hb, rfl⟩, hse⟩
  obtain ⟨t, rs, ht1, ht2, heq⟩ :=
    runLoop_fail fuel ⟨bs.map initProc, 0, 15, countRemaining (bs.map initProc), []⟩
      te c hinit rfl hex' hc (by simpa using hfuel.le) (by omega)
  simp only at ht1 ht2
  refine ⟨t, rs, by omega, by omega, ?_⟩
  simp only [runInParallel, hla, heq, List.map_map]
  rfl

end ParallelRun

namespace ParallelRun

theorem poll_sigCount (p : Proc) (t : Nat) : (p.poll t).sigCount = p.sigCount := by
  cases h : p.rc <;> simp [Proc.poll, h]

theorem poll_firstSig (p : Proc) (t : Nat) : (p.poll t).firstSig = p.firstSig := by
  cases h : p.rc <;> simp [Proc.poll, h]

theorem poll_termCalls (p : Proc) (t : Nat) : (p.poll t).termCalls = p.termCalls := by
  cases h : p.rc <;> simp [Proc.poll, h]

theorem terminate_b (p : Proc) (t : Nat) : (p.terminate t).b = p.b := by
  simp only [Proc.terminate]
  cases h : (({ p with termCalls := p.termCalls + 1 } : Proc).poll t).rc with
  | some c => simp only [h]; rw [poll_b]
  | none => simp only [h]; rw [poll_b]

theorem finallyOne_b (p : Proc) (t : Nat) : (finallyOne p t).b = p.b := by
  cases h : p.rc with
  | some c => simp [finallyOne, h]
  | none => simp only [finallyOne, h]; exact terminate_b p t

theorem postFail_b (b : Behavior) (t : Nat) : (postFail b t).b = b := by
  cases hx : b.osExitCode none t with
  | some c => rw [postFail_some hx]
  | none => exact (postFail_none_spec hx).1

theorem terminate_char_exit {p : Proc} {c : Int} (t : Nat)
    (h0 : p.rc = none) (hx : p.b.osExitCode p.firstSig t = some c) :
    p.terminate t = ⟨p.b, p.firstSig, p.sigCount, p.termCalls + 1, some c⟩ := by
  cases p with
  | mk b fs sc tc rc =>
      simp only at h0 hx
      subst h0
      simp [Proc.terminate, Proc.poll, hx]

theorem terminate_char_sig_again {p : Proc} {s : Nat} (t : Nat)
    (h0 : p.rc = none) (hfs : p.firstSig = some s)
    (hx : p.b.osExitCode p.firstSig t = none) :
    p.terminate t = ⟨p.b, some s, p.sigCount + 1, p.termCalls + 1, none⟩ := by
  cases p with
  | mk b fs sc tc rc =>
      simp only at h0 hfs hx
      subst h0; subst hfs
      simp [Proc.terminate, Proc.poll, hx]

theorem terminate_char_sig_first {p : Proc} (t : Nat)
    (h0 : p.rc = none) (hfs : p.firstSig = none)
    (hx : p.b.osExitCode p.firstSig t = none) :
    p.terminate t = ⟨p.b, some t, p.sigCount + 1, p.termCalls + 1, none⟩ := by
  cases p with
  | mk b fs sc tc rc =>
      simp only at h0 hfs hx
      subst h0; subst hfs
      simp [Proc.terminate, Proc.poll, hx]

theorem finallyOne_rc_or_sig (p : Proc) (t : Nat) :
    (finallyOne p t).rc.isSome = true ∨ 1 ≤ (finallyOne p t).sigCount := by
  cases hrc : p.rc with
  | some c => left; simp [finallyOne, hrc]
  | none =>
      have hfin : finallyOne p t = p.terminate t := by simp [finallyOne, hrc]
      rw [hfin]
      cases hx : p.b.osExitCode p.firstSig t with
      | some c => left; rw [terminate_char_exit t hrc hx]; rfl
      | none =>
          right
          cases hfs : p.firstSig with
          | some s => rw [terminate_char_sig_again t hrc hfs (hfs ▸ hx)]; simp
          | none => rw [terminate_char_sig_first t hrc hfs (hfs ▸ hx)]; simp

theorem terminate_rc_none_firstSig (p : Proc) (t : Nat) (h : (p.terminate t).rc = none) :
    ∃ s, (p.terminate t).firstSig = some s := by
  cases hrc : p.rc with
  | some c => rw [terminate_of_rc_some t hrc] at h; exact absurd (hrc ▸ h) (by simp [hrc])
  | none =>
      cases hx : p.b.osExitCode p.firstSig t with
      | some c =>
          rw [terminate_char_exit t hrc hx] at h
          exact absurd h (by simp)
      | none =>
          cases hfs : p.firstSig with
          | some s => exact ⟨s, by rw [terminate_char_sig_again t hrc hfs (hfs ▸ hx)]⟩
          | none => exact ⟨t, by rw [terminate_char_sig_first t hrc hfs (hfs ▸ hx)]⟩

theorem terminate_terminate_firstSig (p : Proc) (t u : Nat) :
    ((p.terminate t).terminate u).firstSig = (p.terminate t).firstSig := by
  cases hrc : (p.terminate t).rc with
  | some c => rw [terminate_of_rc_some u hrc]
  | none =>
      obtain ⟨s, hs⟩ := terminate_rc_none_firstSig p t hrc
      cases hx : (p.terminate t).b.osExitCode (p.terminate t).firstSig u with
      | some c => rw [terminate_char_exit u hrc hx]
      | none => rw [terminate_char_sig_again u hrc hs (hs ▸ hx), hs]

theorem finallyOne_init_zero (b : Behavior) :
    (finallyOne (initProc b) 0).termCalls = 1 ∧
      ((finallyOne (initProc b) 0).rc.isSome = true ∨
        ((finallyOne (initProc b) 0).sigCount = 1 ∧
          (finallyOne (initProc b) 0).firstSig = some 0)) := by
  cases hx : b.osExitCode none 0 with
  | some c => simp [finallyOne, initProc, Proc.terminate, Proc.poll, hx]
  | none => simp [finallyOne, initProc, Proc.terminate, Proc.poll, hx]

theorem runInParallel_procs (fuel : Nat) (calls : List (Option Behavior)) :
    ∃ (l : List Proc) (τ : Nat),
      (runInParallel fuel calls).procs = l.map (fun p => finallyOne p τ) := by
  cases hl : (launchAll calls).2 with
  | true =>
      refine ⟨(runLoop fuel
          ⟨(launchAll calls).1, 0, 15, countRemaining (launchAll calls).1, []⟩).procs,
        (runLoop fuel
          ⟨(launchAll calls).1, 0, 15, countRemaining (launchAll calls).1, []⟩).now, ?_⟩
      simp [runInParallel, hl]
  | false =>
      exact ⟨(launchAll calls).1, 0, by simp [runInParallel, hl]⟩

/-- Invariant of the reporting machinery: every reported remaining-count is
at most the batch size, the reports never increase, and the last report is
at least the current remaining count. -/
theorem runLoop_reports (fuel : Nat) :
    ∀ (st : LoopState) (n : Nat),
    st.procs.length ≤ n →
    st.remaining = countRemaining st.procs →
    (∀ x ∈ st.reports, x ≤ n) →
    List.Chain' (fun a b => b ≤ a) st.reports →
    (∀ x, st.reports.getLast? = some x → st.remaining ≤ x) →
    (∀ x ∈ (runLoop fuel st).reports, x ≤ n) ∧
      List.Chain' (fun a b => b ≤ a) (runLoop fuel st).reports := by
  induction fuel with
  | zero =>
      intro st n _ _ hall hch _
      by_cases h : st.remaining = 0
      · rw [runLoop_done h]; exact ⟨hall, hch⟩
      · rw [runLoop_zero h]; exact ⟨hall, hch⟩
  | succ f ih =>
      intro st n hlen hrem hall hch hlast
      by_cases h : st.remaining = 0
      · rw [runLoop_done h]; exact ⟨hall, hch⟩
      have hremle : st.remaining ≤ n := by
        rw [hrem]; exact le_trans (countRemaining_le_length _) hlen
      have hall' : ∀ x ∈ stepReports st, x ≤ n := by
        intro x hx
        rw [stepReports] at hx
        by_cases hp : st.nextPrint < st.now
        · rw [if_pos hp] at hx
          rcases List.mem_append.1 hx with hx | hx
          · exact hall x hx
          · simp only [List.mem_singleton] at hx; omega
        · rw [if_neg hp] at hx; exact hall x hx
      have hch' : List.Chain' (fun a b => b ≤ a) (stepReports st) := by
        rw [stepReports]
        by_cases hp : st.nextPrint < st.now
        · rw [if_pos hp, List.chain'_append]
          refine ⟨hch, List.chain'_singleton _, ?_⟩
          intro x hx y hy
          simp only [List.head?_cons, Option.mem_def, Option.some.injEq] at hy
          subst hy
          exact hlast x (by simpa using hx)
        · rw [if_neg hp]; exact hch
      have hlast' : ∀ x, (stepReports st).getLast? = some x → st.remaining ≤ x := by
        intro x hx
        rw [stepReports] at hx
        by_cases hp : st.nextPrint < st.now
        · rw [if_pos hp, List.getLast?_concat] at hx
          obtain rfl := Option.some.inj hx
          exact le_refl _
        · rw [if_neg hp] at hx; exact hlast x hx
      cases hsf : sweepFailure (st.procs.map (fun p => p.poll (st.now + 1))) with
      | true =>
          rw [runLoop_succ_fail h hsf]
          exact ⟨hall', hch'⟩
      | false =>
          rw [runLoop_succ_cont h hsf]
          refine ih _ n (by simpa using hlen) rfl hall' hch' ?_
          intro x hx
          refine le_trans ?_ (hlast' x hx)
          rw [hrem]
          exact le_trans (countRemaining_map_poll_le _ _)
            (countRemaining_map_poll_le _ _)

end ParallelRun

namespace ParallelRun

/-- Claim C9: for the empty batch, `run` returns Success immediately without
entering the polling loop: no poll tick (final clock 0), no sleep, no
progress report, and no handle to cancel. -/
theorem claim_C9 (fuel : Nat) :
    runInParallel fuel ([] : List (Option Behavior)) =
      ⟨.success, [], [], none, 0⟩ := by
  cases fuel <;> rfl

/-- Claim C1: for every all-launchable batch in which some task exits with a
non-zero status at a finite time (within the fuel budget), `run` returns the
failure result, and at the poll sweep `t` that first observed a failed handle
every handle either had already exited on its own by `t` or was sent the
cancel signal at exactly that sweep — regardless of when the failure occurs,
including a task that fails before the first poll tick. -/
theorem claim_C1 (fuel : Nat) (bs : List Behavior) (te : Nat) (c : Int)
    (hex : ∃ b ∈ bs, b.selfExit = some (te, c)) (hc : c ≠ 0) (hfuel : te < fuel) :
    (runInParallel fuel (bs.map some)).result = .failureCode 1 ∧
    ∃ t, 1 ≤ t ∧ t ≤ fuel ∧
      (runInParallel fuel (bs.map some)).failSweep = some t ∧
      ∀ q ∈ (runInParallel fuel (bs.map some)).procs,
        q.b.selfExitedBy t = true ∨ (q.firstSig = some t ∧ 1 ≤ q.sigCount) := by
  obtain ⟨t, rs, ht1, ht2, heq⟩ := runInParallel_fail fuel bs te c hex hc hfuel
  rw [heq]
  refine ⟨rfl, t, ht1, ht2, rfl, ?_⟩
  intro q hq
  obtain ⟨b, _, rfl⟩ := List.mem_map.1 hq
  cases hx : b.osExitCode none t with
  | some c' =>
      left
      rw [postFail_some hx]
      exact selfExitedBy_of_osExit_some hx
  | none =>
      right
      exact ⟨(postFail_none_spec hx).2.2.1, (postFail_none_spec hx).2.2.2⟩

/-- Witness for C1 at a concrete batch: task 0 fails instantly (before the
first poll tick), task 1 never exits on its own. -/
theorem claim_C1_witness :
    ((∃ b ∈ [(⟨some (0, 1), none⟩ : Behavior), ⟨none, some 3⟩],
        b.selfExit = some (0, 1)) ∧ (1 : Int) ≠ 0 ∧ (0 : Nat) < 2) ∧
    ((runInParallel 2 ([(⟨some (0, 1), none⟩ : Behavior), ⟨none, some 3⟩].map some)).result
        = .failureCode 1 ∧
      ∃ t, 1 ≤ t ∧ t ≤ 2 ∧
        (runInParallel 2 ([(⟨some (0, 1), none⟩ : Behavior),
            ⟨none, some 3⟩].map some)).failSweep = some t ∧
        ∀ q ∈ (runInParallel 2 ([(⟨some (0, 1), none⟩ : Behavior),
            ⟨none, some 3⟩].map some)).procs,
          q.b.selfExitedBy t = true ∨ (q.firstSig = some t ∧ 1 ≤ q.sigCount)) :=
  ⟨⟨by decide, by decide, by decide⟩,
    claim_C1 2 [⟨some (0, 1), none⟩, ⟨none, some 3⟩] 0 1 (by decide) (by decide) (by decide)⟩

/-- Claim C2 (amended): whenever at least one task fails, `run` returns the
failure result carrying the constant exit code 1, regardless of how many
tasks failed. -/
theorem claim_C2_amended (fuel : Nat) (bs : List Behavior) (te : Nat) (c : Int)
    (hex : ∃ b ∈ bs, b.selfExit = some (te, c)) (hc : c ≠ 0) (hfuel : te < fuel) :
    (runInParallel fuel (bs.map some)).result = .failureCode 1 := by
  obtain ⟨t, rs, _, _, heq⟩ := runInParallel_fail fuel bs te c hex hc hfuel
  rw [heq]

/-- Counterexample to C2 as stated: two tasks fail (k = 2), but the returned
failure result carries 1, not 2. -/
theorem claim_C2_counterexample :
    (runInParallel 3 [some ⟨some (0, 1), none⟩, some ⟨some (0, 2), none⟩]).result =
        .failureCode 1 ∧
      (runInParallel 3 [some ⟨some (0, 1), none⟩, some ⟨some (0, 2), none⟩]).result ≠
        .failureCode 2 := by decide

/-- Witness for the amended C2 at a batch with two failing tasks. -/
theorem claim_C2_witness :
    ((∃ b ∈ [(⟨some (0, 1), none⟩ : Behavior), ⟨some (0, 2), none⟩],
        b.selfExit = some (0, 1)) ∧ (1 : Int) ≠ 0 ∧ (0 : Nat) < 3) ∧
      (runInParallel 3 ([(⟨some (0, 1), none⟩ : Behavior),
          ⟨some (0, 2), none⟩].map some)).result = .failureCode 1 :=
  ⟨⟨by decide, by decide, by decide⟩,
    claim_C2_amended 3 [⟨some (0, 1), none⟩, ⟨some (0, 2), none⟩] 0 1 (by decide)
      (by decide) (by decide)⟩

/-- Claim C3 (amended): in a batch where some task fails, `run` returns the
failure result, and every handle of a task that never exits on its own
receives exactly two cancel calls: one in the failure sweep and one in the
final cleanup. -/
theorem claim_C3_amended (fuel : Nat) (bs : List Behavior) (te : Nat) (c : Int)
    (hex : ∃ b ∈ bs, b.selfExit = some (te, c)) (hc : c ≠ 0) (hfuel : te < fuel) :
    (runInParallel fuel (bs.map some)).result = .failureCode 1 ∧
      ∀ q ∈ (runInParallel fuel (bs.map some)).procs,
        q.b.selfExit = none → q.termCalls = 2 := by
  obtain ⟨t, rs, _, _, heq⟩ := runInParallel_fail fuel bs te c hex hc hfuel
  rw [heq]
  refine ⟨rfl, ?_⟩
  intro q hq hnone
  obtain ⟨b, _, rfl⟩ := List.mem_map.1 hq
  rw [postFail_b] at hnone
  exact (postFail_none_spec (osExitCode_none_of_selfExit_none t hnone)).2.1

/-- Counterexample to C3 as stated: one task fails instantly, the other keeps
running until cancelled, yet the other handle receives two terminate calls,
not exactly one. -/
theorem claim_C3_counterexample :
    (runInParallel 3 [some ⟨some (0, 1), none⟩, some ⟨none, some 5⟩]).result =
        .failureCode 1 ∧
      (runInParallel 3 [some ⟨some (0, 1), none⟩, some ⟨none, some 5⟩]).procs.map
          (fun q => q.termCalls) = [1, 2] ∧ (2 : Nat) ≠ 1 := by decide

/-- Witness for the amended C3 at a concrete two-task batch. -/
theorem claim_C3_witness :
    ((∃ b ∈ [(⟨some (0, 1), none⟩ : Behavior), ⟨none, some 5⟩],
        b.selfExit = some (0, 1)) ∧ (1 : Int) ≠ 0 ∧ (0 : Nat) < 3) ∧
      ((runInParallel 3 ([(⟨some (0, 1), none⟩ : Behavior), ⟨none, some 5⟩].map some)).result
          = .failureCode 1 ∧
        ∀ q ∈ (runInParallel 3 ([(⟨some (0, 1), none⟩ : Behavior),
            ⟨none, some 5⟩].map some)).procs,
          q.b.selfExit = none → q.termCalls = 2) :=
  ⟨⟨by decide, by decide, by decide⟩,
    claim_C3_amended 3 [⟨some (0, 1), none⟩, ⟨none, some 5⟩] 0 1 (by decide) (by decide)
      (by decide)⟩

/-- Claim C4 (amended): by the end of every run, every spawned process has
either been observed to have exited (its exit status cached) or has been sent
at least one termination signal; the exit status of signalled processes is
not observed afterwards. -/
theorem claim_C4_amended (fuel : Nat) (calls : List (Option Behavior)) :
    ∀ q ∈ (runInParallel fuel calls).procs,
      q.rc.isSome = true ∨ 1 ≤ q.sigCount := by
  obtain ⟨l, τ, hp⟩ := runInParallel_procs fuel calls
  rw [hp]
  intro q hq
  obtain ⟨p, _, rfl⟩ := List.mem_map.1 hq
  exact finallyOne_rc_or_sig p τ

/-- Counterexample to C4 as stated: after a failed run the cancelled,
still-running process's exit status is never observed. -/
theorem claim_C4_counterexample :
    ¬ ∀ q ∈ (runInParallel 3 [some ⟨none, some 5⟩, some ⟨some (0, 1), none⟩]).procs,
        q.rc.isSome = true := by decide

/-- Witness for the amended C4 at a concrete one-task run that exhausts its
fuel and cleans up in the `finally` block. -/
theorem claim_C4_witness :
    ((⟨⟨none, some 5⟩, some 0, 1, 1, none⟩ : Proc) ∈
        (runInParallel 0 [some ⟨none, some 5⟩]).procs) ∧
      ((⟨⟨none, some 5⟩, some 0, 1, 1, none⟩ : Proc).rc.isSome = true ∨
        1 ≤ (⟨⟨none, some 5⟩, some 0, 1, 1, none⟩ : Proc).sigCount) :=
  ⟨by decide, claim_C4_amended 0 [some ⟨none, some 5⟩] _ (by decide)⟩

/-- Claim C5 (amended): cancellation is requested at most twice per handle
(once in the failure sweep and at most once more in the final cleanup); there
is no escalation beyond the advisory signal — instead, on the failure path
`run` returns immediately without waiting for cancelled tasks, so it
terminates there even when tasks ignore the termination request. -/
theorem claim_C5_amended (fuel : Nat) (bs : List Behavior) (te : Nat) (c : Int)
    (hex : ∃ b ∈ bs, b.selfExit = some (te, c)) (hc : c ≠ 0) (hfuel : te < fuel) :
    (runInParallel fuel (bs.map some)).result = .failureCode 1 ∧
      ∀ q ∈ (runInParallel fuel (bs.map some)).procs, q.termCalls ≤ 2 := by
  obtain ⟨t, rs, _, _, heq⟩ := runInParallel_fail fuel bs te c hex hc hfuel
  rw [heq]
  refine ⟨rfl, ?_⟩
  intro q hq
  obtain ⟨b, _, rfl⟩ := List.mem_map.1 hq
  cases hx : b.osExitCode none t with
  | some c' => rw [postFail_some hx]; exact Nat.le_succ 1
  | none => exact le_of_eq (postFail_none_spec hx).2.1

/-- Counterexample to C5 as stated: the handle of a task that ignores the
termination request receives two termination requests, not at most one. -/
theorem claim_C5_counterexample :
    (runInParallel 4 [some ⟨some (0, 7), none⟩, some ⟨none, none⟩]).result =
        .failureCode 1 ∧
      (runInParallel 4 [some ⟨some (0, 7), none⟩, some ⟨none, none⟩]).procs.map
          (fun q => q.termCalls) = [1, 2] ∧ ¬ ((2 : Nat) ≤ 1) := by decide

/-- Witness for the amended C5 at a batch whose surviving task ignores
termination requests. -/
theorem claim_C5_witness :
    ((∃ b ∈ [(⟨some (0, 7), none⟩ : Behavior), ⟨none, none⟩],
        b.selfExit = some (0, 7)) ∧ (7 : Int) ≠ 0 ∧ (0 : Nat) < 4) ∧
      ((runInParallel 4 ([(⟨some (0, 7), none⟩ : Behavior), ⟨none, none⟩].map some)).result
          = .failureCode 1 ∧
        ∀ q ∈ (runInParallel 4 ([(⟨some (0, 7), none⟩ : Behavior),
            ⟨none, none⟩].map some)).procs, q.termCalls ≤ 2) :=
  ⟨⟨by decide, by decide, by decide⟩,
    claim_C5_amended 4 [⟨some (0, 7), none⟩, ⟨none, none⟩] 0 7 (by decide) (by decide)
      (by decide)⟩

/-- Claim C6: if any launch fails, `run` aborts with the launch error before
any poll tick (final clock 0, no progress report, no failure sweep); the
spawned handles are exactly those of the input-order prefix before the
failing launch, and each of them received exactly one best-effort cancel
call as part of abort cleanup. -/
theorem claim_C6 (fuel : Nat) (calls : List (Option Behavior)) (h : none ∈ calls) :
    (runInParallel fuel calls).result = .launchError ∧
    (runInParallel fuel calls).now = 0 ∧
    (runInParallel fuel calls).reports = [] ∧
    (runInParallel fuel calls).failSweep = none ∧
    (runInParallel fuel calls).procs.map (fun p => p.b) =
      (calls.takeWhile (fun c => c.isSome)).filterMap id ∧
    ∀ p ∈ (runInParallel fuel calls).procs,
      p.termCalls = 1 ∧
        (p.rc.isSome = true ∨ (p.sigCount = 1 ∧ p.firstSig = some 0)) := by
  have hfalse : (launchAll calls).2 = false := (launchAll_false_iff calls).2 h
  have hout : runInParallel fuel calls =
      ⟨.launchError, (launchAll calls).1.map (fun p => finallyOne p 0), [], none, 0⟩ := by
    simp [runInParallel, hfalse]
  rw [hout]
  refine ⟨rfl, rfl, rfl, rfl, ?_, ?_⟩
  · rw [List.map_map]
    have hcomp : ((fun p => p.b) ∘ fun p => finallyOne p 0) = fun (p : Proc) => p.b := by
      funext p; exact finallyOne_b p 0
    rw [hcomp, launchAll_behaviors]
  · intro p hp
    obtain ⟨p0, hp0, rfl⟩ := List.mem_map.1 hp
    have hinit := launchAll_init calls p0 hp0
    rw [hinit]
    exact ⟨(finallyOne_init_zero p0.b).1, (finallyOne_init_zero p0.b).2⟩

/-- Witness for C6: the second launch fails, the first task was already
launched and is cleaned up. -/
theorem claim_C6_witness :
    (none ∈ [some (⟨none, some 3⟩ : Behavior), none]) ∧
      ((runInParallel 5 [some ⟨none, some 3⟩, none]).result = .launchError ∧
       (runInParallel 5 [some ⟨none, some 3⟩, none]).now = 0 ∧
       (runInParallel 5 [some ⟨none, some 3⟩, none]).reports = [] ∧
       (runInParallel 5 [some ⟨none, some 3⟩, none]).failSweep = none ∧
       (runInParallel 5 [some ⟨none, some 3⟩, none]).procs.map (fun p => p.b) =
         (([some ⟨none, some 3⟩, none] : List (Option Behavior)).takeWhile
            (fun c => c.isSome)).filterMap id ∧
       ∀ p ∈ (runInParallel 5 [some ⟨none, some 3⟩, none]).procs,
         p.termCalls = 1 ∧
           (p.rc.isSome = true ∨ (p.sigCount = 1 ∧ p.firstSig = some 0))) :=
  ⟨by decide, claim_C6 5 [some ⟨none, some 3⟩, none] (by decide)⟩

/-- Claim C7: at every report tick the remaining count passed to the progress
reporter is at most the batch size, and across successive reports of one run
the reported count never increases. -/
theorem claim_C7 (fuel : Nat) (calls : List (Option Behavior)) :
    (∀ x ∈ (runInParallel fuel calls).reports, x ≤ calls.length) ∧
      List.Chain' (fun a b => b ≤ a) (runInParallel fuel calls).reports := by
  cases hl : (launchAll calls).2 with
  | false =>
      have hrep : (runInParallel fuel calls).reports = [] := by
        simp [runInParallel, hl]
      rw [hrep]
      exact ⟨fun x hx => absurd hx (by simp), List.chain'_nil⟩
  | true =>
      have hrep : (runInParallel fuel calls).reports =
          (runLoop fuel ⟨(launchAll calls).1, 0, 15,
            countRemaining (launchAll calls).1, []⟩).reports := by
        simp [runInParallel, hl]
      rw [hrep]
      exact runLoop_reports fuel _ calls.length (launchAll_length_le calls) rfl
        (fun x hx => absurd hx (by simp)) List.chain'_nil
        (fun x hx => absurd hx (by simp))

/-- Claim C8 (amended): cancelling an already-terminal handle is a no-op
(only the supervisor-side call counter changes), and a repeated cancel never
changes the recorded time of the first termination request — hence never
changes the handle's induced exit trajectory — though it may deliver an
extra advisory signal. -/
theorem claim_C8_amended (p : Proc) (t u : Nat) :
    ((p.terminate t).terminate u).firstSig = (p.terminate t).firstSig ∧
      (∀ c, p.rc = some c → p.terminate t = { p with termCalls := p.termCalls + 1 }) :=
  ⟨terminate_terminate_firstSig p t u, fun _ hc => terminate_of_rc_some t hc⟩

/-- Counterexample to C8 as stated: a second cancel on a still-running handle
delivers a second termination signal — an additional observable side
effect. -/
theorem claim_C8_counterexample :
    ((initProc ⟨none, some 5⟩).terminate 0).sigCount = 1 ∧
      (((initProc ⟨none, some 5⟩).terminate 0).terminate 0).sigCount = 2 ∧
      (2 : Nat) ≠ 1 := by decide

/-- Witness for the amended C8 at a terminal handle. -/
theorem claim_C8_witness :
    (((⟨⟨some (0, 0), none⟩, none, 0, 0, some 0⟩ : Proc).terminate 0).terminate 1).firstSig =
        ((⟨⟨some (0, 0), none⟩, none, 0, 0, some 0⟩ : Proc).terminate 0).firstSig ∧
      (⟨⟨some (0, 0), none⟩, none, 0, 0, some 0⟩ : Proc).terminate 0 =
        ⟨⟨some (0, 0), none⟩, none, 0, 1, some 0⟩ :=
  ⟨(claim_C8_amended ⟨⟨some (0, 0), none⟩, none, 0, 0, some 0⟩ 0 1).1,
    (claim_C8_amended ⟨⟨some (0, 0), none⟩, none, 0, 0, some 0⟩ 0 1).2 0 rfl⟩

end ParallelRun

namespace Rerecord

/-- Claim C10: every launcher built by the re-record routine spawns its test
process with both stdout and stderr redirected to the null device, so no
per-task output is observable through the supervisor. -/
theorem claim_C10 (pyExe repoDir : String) (testFiles : List String) :
    ∀ call ∈ rerecordCalls pyExe repoDir testFiles,
      call.stdout = Redirect.devnull ∧ call.stderr = Redirect.devnull := by
  intro call hc
  obtain ⟨f, _, rfl⟩ := List.mem_map.1 hc
  exact ⟨rfl, rfl⟩

/-- Witness for C10 at a concrete test-file list. -/
theorem claim_C10_witness :
    (testModuleCall "py" "repo" "tests/test_types.py" ∈
        rerecordCalls "py" "repo" ["tests/test_types.py"]) ∧
      ((testModuleCall "py" "repo" "tests/test_types.py").stdout = Redirect.devnull ∧
        (testModuleCall "py" "repo" "tests/test_types.py").stderr = Redirect.devnull) :=
  ⟨List.mem_singleton.2 rfl,
    claim_C10 "py" "repo" ["tests/test_types.py"] _ (List.mem_singleton.2 rfl)⟩

end Rerecord
